import Mathlib

/-!
Verification of benchmark-golang-maps: map builders and benchmark labels.

A shallow embedding of `main.go` (the two map builders and the package-level
variable `m`) and of the label computation of `main_test.go`, followed by the
properties established about them.

Modelling conventions.

* Go's `int` is a two's-complement machine integer of 32 or 64 bits; values are
  `Int`s and `i++` wraps around explicitly (`incr`).
* A Go map is a record of the size hint given to `make` and of its bindings, a
  list of key/value pairs with pairwise distinct keys in insertion order.
* The `for` loop is run with fuel: `none` means that the fuel ran out before the
  loop condition became false.
* The builders return nothing in Go. Here they return the frame at loop exit
  (package-level `m`, local `m`, local `i`, and a ghost iteration counter), so
  that properties of the local mapping can be stated.
* Memory exhaustion is not modelled: a map can hold any number of bindings.
-/

namespace BenchmarkGolangMaps

/-! ## Machine integers -/

/-- The width of Go's `int`, which the language leaves to the platform. -/
inductive IntSize where
  | bits32
  | bits64
  deriving DecidableEq, Repr

/-- Number of bits of an `int`. -/
def IntSize.bits : IntSize → Nat
  | .bits32 => 32
  | .bits64 => 64

/-- Largest value of an `int` (`math.MaxInt`). -/
def maxInt (sz : IntSize) : Int := 2 ^ (sz.bits - 1) - 1

/-- Smallest value of an `int` (`math.MinInt`). -/
def minInt (sz : IntSize) : Int := -(2 ^ (sz.bits - 1))

/-- Two's-complement reduction of a mathematical integer to an `int`. -/
def wrapInt (sz : IntSize) (x : Int) : Int :=
  (x + 2 ^ (sz.bits - 1)) % 2 ^ sz.bits - 2 ^ (sz.bits - 1)

/-- The statement `i++` on an `int`: addition of one with wrap-around. -/
def incr (sz : IntSize) (i : Int) : Int := wrapInt sz (i + 1)

/-! ## Values and maps -/

/-- The type `struct{}`; its only value is `struct{}{}`. -/
inductive EmptyStruct where
  | mk
  deriving DecidableEq, Repr

/-- The type `interface{}`: either `nil`, or a boxed value, whose dynamic type
and payload are abstracted to a type tag and a number. -/
inductive Interface where
  | nil
  | box (typeTag : Nat) (payload : Int)
  deriving DecidableEq, Repr

/-- A Go `map[int]V`: the size hint passed to `make` and the bindings. -/
structure GoMap (V : Type) where
  hint : Int
  data : List (Int × V)
  deriving DecidableEq, Repr

namespace GoMap

variable {V : Type}

/-- The expression `make(map[int]V, Capacity)`: a fresh map without bindings;
the capacity is only recorded as the allocation hint. -/
def make (Capacity : Int) : GoMap V := { hint := Capacity, data := [] }

/-- Whether the key is bound. -/
def contains (m : GoMap V) (k : Int) : Bool := m.data.any (fun p => p.1 == k)

/-- The assignment `m[k] = v`: rebinds `k` when it is bound, adds a binding
otherwise. The hint is left as it is. -/
def set (m : GoMap V) (k : Int) (v : V) : GoMap V :=
  if m.contains k then
    { m with data := m.data.map (fun p => if p.1 == k then (k, v) else p) }
  else
    { m with data := m.data ++ [(k, v)] }

/-- The expression `len(m)`. -/
def len (m : GoMap V) : Nat := m.data.length

/-- The keys of the map, in insertion order. -/
def keys (m : GoMap V) : List Int := m.data.map Prod.fst

/-- The lookup `v, ok := m[k]`, as an option. -/
def get? (m : GoMap V) (k : Int) : Option V :=
  (m.data.find? (fun p => p.1 == k)).map Prod.snd

end GoMap

/-! ## Package state and the builders -/

/-- The package-level variables of `main.go`: `var m map[int]struct{}`,
where `none` is the nil map. -/
structure Package where
  m : Option (GoMap EmptyStruct)
  deriving DecidableEq, Repr

/-- The package state at program start: `m` is the nil map. -/
def Package.init : Package := { m := none }

/-- The variables in scope inside a builder: the package-level variables, the
local `m` (which shadows the package-level `m`), the loop counter `i`, and a
ghost counter of the loop iterations performed. -/
structure Frame (V : Type) where
  pkg : Package
  m : GoMap V
  i : Int
  iterations : Nat
  deriving DecidableEq, Repr

/-- The loop `for ; i <= Entries; i++ { m[i] = v }` of both builders, with `v`
the value stored (`struct{}{}` or `nil`). Each unit of fuel pays for one
evaluation of the loop condition. -/
def forLoop {V : Type} (sz : IntSize) (v : V) (Entries : Int) : Nat → Frame V → Option (Frame V)
  | 0, _ => none
  | fuel + 1, s =>
    if s.i ≤ Entries then
      forLoop sz v Entries fuel
        { s with m := s.m.set s.i v, i := incr sz s.i, iterations := s.iterations + 1 }
    else
      some s

/-- The function `MapWithInterface(Entries, Capacity)`:
`m := make(map[int]interface{}, Capacity)`, then
`for i := 1; i <= Entries; i++ { m[i] = nil }`. -/
def MapWithInterface (sz : IntSize) (fuel : Nat) (pkg : Package) (Entries Capacity : Int) :
    Option (Frame Interface) :=
  forLoop sz Interface.nil Entries fuel
    { pkg := pkg, m := GoMap.make Capacity, i := 1, iterations := 0 }

/-- The function `MapWithEmptyStruct(Entries, Capacity)`:
`m := make(map[int]struct{}, Capacity)`, then
`for i := 1; i <= Entries; i++ { m[i] = struct{}{} }`. -/
def MapWithEmptyStruct (sz : IntSize) (fuel : Nat) (pkg : Package) (Entries Capacity : Int) :
    Option (Frame EmptyStruct) :=
  forLoop sz EmptyStruct.mk Entries fuel
    { pkg := pkg, m := GoMap.make Capacity, i := 1, iterations := 0 }

/-- Two calls of a builder in sequence, the second one started in the package
state that the first one left; the result is the pair of local mappings. -/
def callTwice {V : Type} (builder : Package → Option (Frame V)) (pkg : Package) :
    Option (GoMap V × GoMap V) :=
  (builder pkg).bind fun first =>
    (builder first.pkg).map fun second => (first.m, second.m)

/-! ## Benchmark table and labels -/

/-- A row of the benchmark table. -/
structure Benchmark where
  Entries : Int
  InitialCapacity : Int
  deriving DecidableEq, Repr

/-- The table `benchmarks` of `main_test.go`. -/
def benchmarks : List Benchmark :=
  [⟨7, 0⟩, ⟨8, 0⟩, ⟨9, 0⟩, ⟨16, 16⟩, ⟨16, 32⟩, ⟨16, 100⟩, ⟨100, 0⟩, ⟨100, 128⟩]

/-- Decimal digits of a natural number, most significant first; the first argument
bounds the number of digits produced and is always given as more than enough. -/
def decimalDigits : Nat → Nat → List Char
  | 0, _ => []
  | fuel + 1, n =>
    if n < 10 then [Char.ofNat (48 + n)]
    else decimalDigits fuel (n / 10) ++ [Char.ofNat (48 + n % 10)]

/-- The verb `%d`: a minus sign for a negative number, then the decimal digits. -/
def formatD (n : Int) : List Char :=
  if n < 0 then '-' :: decimalDigits (n.natAbs + 1) n.natAbs
  else decimalDigits (n.natAbs + 1) n.natAbs

/-- The verb `%3d`: the text of `%d`, padded on the left with blanks to a width
of at least three characters. -/
def format3d (n : Int) : List Char :=
  List.replicate (3 - (formatD n).length) ' ' ++ formatD n

/-- The label of a row, computed alike by `Benchmark_EmptyStructTDB` and
`Benchmark_InterfaceTDB`:
`fmt.Sprintf("Entries: %3d, InitialCapacity: %3d\n", bm.Entries, bm.InitialCapacity)`. -/
def desc (bm : Benchmark) : String :=
  String.mk ("Entries: ".toList ++ format3d bm.Entries ++ ", InitialCapacity: ".toList
    ++ format3d bm.InitialCapacity ++ "\n".toList)

/-- The bindings `1 ↦ v, ..., n ↦ v`, in increasing order of the keys. -/
def bindingsUpTo {V : Type} (v : V) (n : Nat) : List (Int × V) :=
  (List.range n).map fun (j : Nat) => ((j : Int) + 1, v)

/-! ## Machine-integer lemmas -/

theorem half_pos (sz : IntSize) : (0 : Int) < 2 ^ (sz.bits - 1) := by
  positivity

theorem pow_bits_eq (sz : IntSize) : (2 : Int) ^ sz.bits = 2 * 2 ^ (sz.bits - 1) := by
  cases sz <;> norm_num [IntSize.bits]

theorem one_lt_maxInt (sz : IntSize) : 1 < maxInt sz := by
  cases sz <;> norm_num [maxInt, IntSize.bits]

theorem wrapInt_le_maxInt (sz : IntSize) (x : Int) : wrapInt sz x ≤ maxInt sz := by
  have hpos := half_pos sz
  have hlt : (x + 2 ^ (sz.bits - 1)) % 2 ^ sz.bits < 2 ^ sz.bits :=
    Int.emod_lt_of_pos _ (by rw [pow_bits_eq]; omega)
  rw [pow_bits_eq] at hlt
  unfold wrapInt maxInt
  rw [pow_bits_eq]
  omega

theorem wrapInt_of_inRange (sz : IntSize) (x : Int) (hlo : minInt sz ≤ x) (hhi : x ≤ maxInt sz) :
    wrapInt sz x = x := by
  have hpos := half_pos sz
  unfold minInt at hlo
  unfold maxInt at hhi
  unfold wrapInt
  rw [Int.emod_eq_of_lt (by omega) (by rw [pow_bits_eq]; omega)]
  omega

theorem incr_of_lt_maxInt (sz : IntSize) (i : Int) (hlo : 0 ≤ i) (hhi : i < maxInt sz) :
    incr sz i = i + 1 := by
  have hpos := half_pos sz
  exact wrapInt_of_inRange sz (i + 1) (by unfold minInt; omega) (by omega)

/-! ## Map lemmas -/

theorem bindingsUpTo_succ {V : Type} (v : V) (n : Nat) :
    bindingsUpTo v (n + 1) = bindingsUpTo v n ++ [((n : Int) + 1, v)] := by
  rw [bindingsUpTo, bindingsUpTo, List.range_succ, List.map_append]
  rfl

theorem length_bindingsUpTo {V : Type} (v : V) (n : Nat) : (bindingsUpTo v n).length = n := by
  simp [bindingsUpTo]

theorem mem_bindingsUpTo {V : Type} (v : V) (n : Nat) (k : Int) (x : V) :
    (k, x) ∈ bindingsUpTo v n ↔ (1 ≤ k ∧ k ≤ n) ∧ x = v := by
  simp only [bindingsUpTo, List.mem_map, List.mem_range, Prod.mk.injEq]
  constructor
  · rintro ⟨j, hj, rfl, rfl⟩
    exact ⟨⟨by omega, by omega⟩, rfl⟩
  · rintro ⟨⟨h1, h2⟩, rfl⟩
    exact ⟨(k - 1).toNat, by omega, by omega, rfl⟩

theorem mem_keys_bindingsUpTo {V : Type} (v : V) (n : Nat) (k : Int) :
    k ∈ (bindingsUpTo v n).map Prod.fst ↔ 1 ≤ k ∧ k ≤ n := by
  simp only [List.mem_map, Prod.exists, exists_and_right, exists_eq_right]
  constructor
  · rintro ⟨x, hx⟩
    exact ((mem_bindingsUpTo v n k x).1 hx).1
  · intro h
    exact ⟨v, (mem_bindingsUpTo v n k v).2 ⟨h, rfl⟩⟩

theorem nodup_keys_bindingsUpTo {V : Type} (v : V) (n : Nat) :
    ((bindingsUpTo v n).map Prod.fst).Nodup := by
  induction n with
  | zero => simp [bindingsUpTo]
  | succ n ih =>
    rw [bindingsUpTo_succ, List.map_append, List.nodup_append]
    refine ⟨ih, by simp, ?_⟩
    intro a ha hb
    simp only [List.map_cons, List.map_nil, List.mem_singleton] at hb
    have := (mem_keys_bindingsUpTo v n a).1 ha
    omega

theorem find_bindingsUpTo {V : Type} (v : V) (n : Nat) (k : Int) :
    (bindingsUpTo v n).find? (fun p => p.1 == k) =
      if 1 ≤ k ∧ k ≤ n then some (k, v) else none := by
  induction n with
  | zero =>
    have h0 : ¬ (1 ≤ k ∧ k ≤ ((0 : Nat) : Int)) := by omega
    rw [if_neg h0]
    rfl
  | succ n ih =>
    rw [bindingsUpTo_succ, List.find?_append, ih]
    by_cases h : 1 ≤ k ∧ k ≤ (n : Int)
    · have h' : 1 ≤ k ∧ k ≤ ((n + 1 : Nat) : Int) := ⟨h.1, by omega⟩
      rw [if_pos h, if_pos h']
      rfl
    · by_cases hk : k = (n : Int) + 1
      · have h' : 1 ≤ k ∧ k ≤ ((n + 1 : Nat) : Int) := by omega
        rw [if_neg h, if_pos h', hk]
        simp
      · have h' : ¬ (1 ≤ k ∧ k ≤ ((n + 1 : Nat) : Int)) := by omega
        have hne : ¬ ((n : Int) + 1 = k) := fun e => hk e.symm
        rw [if_neg h, if_neg h']
        simp [hne]

theorem not_contains_next {V : Type} (m : GoMap V) (v : V) (n : Nat)
    (hm : m.data = bindingsUpTo v n) : m.contains ((n : Int) + 1) = false := by
  rw [GoMap.contains, hm, Bool.eq_false_iff]
  intro h
  rw [List.any_eq_true] at h
  obtain ⟨⟨k, x⟩, hmem, hk⟩ := h
  have := ((mem_bindingsUpTo v n k x).1 hmem).1
  simp only [beq_iff_eq] at hk
  omega

theorem set_next {V : Type} (m : GoMap V) (v : V) (n : Nat) (hm : m.data = bindingsUpTo v n) :
    m.set ((n : Int) + 1) v = { hint := m.hint, data := bindingsUpTo v (n + 1) } := by
  simp [GoMap.set, not_contains_next m v n hm, bindingsUpTo_succ, hm]

/-! ## Loop lemmas -/

/-- More fuel does not change the result of a loop that has exited. -/
theorem forLoop_mono {V : Type} (sz : IntSize) (v : V) (Entries : Int) (extra : Nat) :
    ∀ (fuel : Nat) (s r : Frame V),
      forLoop sz v Entries fuel s = some r → forLoop sz v Entries (fuel + extra) s = some r := by
  intro fuel
  induction fuel with
  | zero => intro s r h; simp [forLoop] at h
  | succ fuel ih =>
    intro s r h
    rw [Nat.add_right_comm]
    unfold forLoop at h ⊢
    by_cases hc : s.i ≤ Entries
    · rw [if_pos hc] at h ⊢
      exact ih _ _ h
    · rw [if_neg hc] at h ⊢
      exact h

/-- Two runs of the same loop that both exit give the same frame. -/
theorem forLoop_unique {V : Type} (sz : IntSize) (v : V) (Entries : Int) (f₁ f₂ : Nat)
    (s r₁ r₂ : Frame V) (h₁ : forLoop sz v Entries f₁ s = some r₁)
    (h₂ : forLoop sz v Entries f₂ s = some r₂) : r₁ = r₂ := by
  have e₁ := forLoop_mono sz v Entries f₂ f₁ s r₁ h₁
  have e₂ := forLoop_mono sz v Entries f₁ f₂ s r₂ h₂
  rw [Nat.add_comm] at e₂
  rw [e₁] at e₂
  exact Option.some.inj e₂

/-- The loop exits at once, with the frame unchanged, when the counter is past `Entries`. -/
theorem forLoop_exit {V : Type} (sz : IntSize) (v : V) (Entries : Int) (fuel : Nat) (s : Frame V)
    (h : Entries < s.i) : forLoop sz v Entries (fuel + 1) s = some s := by
  unfold forLoop
  rw [if_neg (by omega)]

/-- From counter `n + 1` with the bindings `1..n` in place, and `d` more keys to go below
`maxInt`, the loop exits after exactly `d` more iterations with the bindings `1..n+d`. -/
theorem forLoop_run {V : Type} (sz : IntSize) (v : V) (Entries : Int) (hE : Entries < maxInt sz) :
    ∀ (d n fuel : Nat) (s : Frame V), s.i = (n : Int) + 1 → (n : Int) + d = Entries →
      s.m.data = bindingsUpTo v n → d < fuel →
      forLoop sz v Entries fuel s =
        some { pkg := s.pkg, m := { hint := s.m.hint, data := bindingsUpTo v (n + d) },
               i := Entries + 1, iterations := s.iterations + d } := by
  intro d
  induction d with
  | zero =>
    intro n fuel s hi hn hm hf
    obtain ⟨fuel, rfl⟩ : ∃ f, fuel = f + 1 := ⟨fuel - 1, by omega⟩
    rw [forLoop_exit sz v Entries fuel s (by omega)]
    obtain ⟨pkg, ⟨hint, data⟩, i, it⟩ := s
    simp only at hi hm
    subst hm
    simp only [Nat.add_zero, Option.some.injEq, Frame.mk.injEq, true_and, and_true]
    omega
  | succ d ih =>
    intro n fuel s hi hn hm hf
    obtain ⟨fuel, rfl⟩ : ∃ f, fuel = f + 1 := ⟨fuel - 1, by omega⟩
    unfold forLoop
    rw [if_pos (by omega)]
    have hinc : incr sz s.i = ((n + 1 : Nat) : Int) + 1 := by
      rw [hi, incr_of_lt_maxInt sz _ (by omega) (by omega)]
      omega
    have hset : s.m.set s.i v = { hint := s.m.hint, data := bindingsUpTo v (n + 1) } := by
      rw [hi]
      exact set_next s.m v n hm
    rw [ih (n + 1) fuel _ hinc (by push_cast; omega) (by rw [hset]) (by omega)]
    simp only [hset, Option.some.injEq, Frame.mk.injEq, true_and]
    refine ⟨by rw [Nat.add_right_comm, Nat.add_assoc], by omega⟩

/-- When `Entries` is the largest `int`, the loop condition holds for every `int` value of
the counter, and the loop does not exit, whatever the fuel. -/
theorem forLoop_diverges {V : Type} (sz : IntSize) (v : V) (Entries : Int)
    (hE : maxInt sz ≤ Entries) :
    ∀ (fuel : Nat) (s : Frame V), s.i ≤ maxInt sz → forLoop sz v Entries fuel s = none := by
  intro fuel
  induction fuel with
  | zero => intro s _; rfl
  | succ fuel ih =>
    intro s hs
    unfold forLoop
    rw [if_pos (by omega)]
    exact ih _ (wrapInt_le_maxInt sz _)

/-- The loop never touches the package-level variables. -/
theorem forLoop_pkg {V : Type} (sz : IntSize) (v : V) (Entries : Int) :
    ∀ (fuel : Nat) (s r : Frame V), forLoop sz v Entries fuel s = some r → r.pkg = s.pkg := by
  intro fuel
  induction fuel with
  | zero => intro s r h; simp [forLoop] at h
  | succ fuel ih =>
    intro s r h
    unfold forLoop at h
    by_cases hc : s.i ≤ Entries
    · rw [if_pos hc] at h
      have hp := ih _ r h
      exact hp
    · rw [if_neg hc] at h
      rw [← Option.some.inj h]

/-- The loop never changes the allocation hint, and it is the only part of the initial map
that the result depends on: the bindings at exit are those of the run from any other hint. -/
theorem forLoop_hint {V : Type} (sz : IntSize) (v : V) (Entries : Int) :
    ∀ (fuel : Nat) (s : Frame V) (c : Int),
      (forLoop sz v Entries fuel { s with m := { s.m with hint := c } }).map
          (fun r => (r.pkg, r.m.data, r.i, r.iterations)) =
        (forLoop sz v Entries fuel s).map (fun r => (r.pkg, r.m.data, r.i, r.iterations)) := by
  intro fuel
  induction fuel with
  | zero => intro s c; rfl
  | succ fuel ih =>
    intro s c
    unfold forLoop
    by_cases hc : s.i ≤ Entries
    · simp only [if_pos hc]
      have hs : ({ hint := c, data := s.m.data } : GoMap V).set s.i v =
          { s.m.set s.i v with hint := c } := by
        unfold GoMap.set GoMap.contains
        split <;> rfl
      rw [hs]
      exact ih { s with m := s.m.set s.i v, i := incr sz s.i, iterations := s.iterations + 1 } c
    · simp only [if_neg hc]
      rfl

/-- The loop result does not depend on the package state it is started in. -/
theorem forLoop_pkg_irrelevant {V : Type} (sz : IntSize) (v : V) (Entries : Int) :
    ∀ (fuel : Nat) (s : Frame V) (p : Package),
      (forLoop sz v Entries fuel { s with pkg := p }).map (fun r => r.m) =
        (forLoop sz v Entries fuel s).map (fun r => r.m) := by
  intro fuel
  induction fuel with
  | zero => intro s p; rfl
  | succ fuel ih =>
    intro s p
    unfold forLoop
    by_cases hc : s.i ≤ Entries
    · simp only [if_pos hc]
      exact ih { s with m := s.m.set s.i v, i := incr sz s.i, iterations := s.iterations + 1 } p
    · simp only [if_neg hc]
      rfl

/-! ## The builders' loop, started on a fresh map -/

/-- The frame in which both builders enter their loop. -/
theorem build_eq {V : Type} (sz : IntSize) (v : V) (pkg : Package) (Entries Capacity : Int)
    (hE : Entries < maxInt sz) (fuel : Nat) (hf : Entries.toNat < fuel) :
    forLoop sz v Entries fuel { pkg := pkg, m := GoMap.make Capacity, i := 1, iterations := 0 } =
      some { pkg := pkg, m := { hint := Capacity, data := bindingsUpTo v Entries.toNat },
             i := (Entries.toNat : Int) + 1, iterations := Entries.toNat } := by
  by_cases h0 : 0 ≤ Entries
  · have h := forLoop_run sz v Entries hE Entries.toNat 0 fuel
      { pkg := pkg, m := GoMap.make Capacity, i := 1, iterations := 0 }
      (by simp) (by simp only [Nat.cast_zero]; omega) rfl hf
    rw [h]
    simp only [GoMap.make, Nat.zero_add, Option.some.injEq, Frame.mk.injEq, true_and, and_true]
    omega
  · obtain ⟨fuel, rfl⟩ : ∃ f, fuel = f + 1 := ⟨fuel - 1, by omega⟩
    rw [forLoop_exit sz v Entries fuel _ (by simp only; omega)]
    have hz : Entries.toNat = 0 := by omega
    rw [hz]
    rfl

theorem build_post {V : Type} (sz : IntSize) (v : V) (pkg : Package) (Entries Capacity : Int)
    (fuel : Nat) (out : Frame V)
    (h : forLoop sz v Entries fuel
      { pkg := pkg, m := GoMap.make Capacity, i := 1, iterations := 0 } = some out) :
    out = { pkg := pkg, m := { hint := Capacity, data := bindingsUpTo v Entries.toNat },
            i := (Entries.toNat : Int) + 1, iterations := Entries.toNat } := by
  by_cases hE : Entries < maxInt sz
  · exact forLoop_unique sz v Entries fuel (Entries.toNat + 1) _ _ _ h
      (build_eq sz v pkg Entries Capacity hE _ (Nat.lt_succ_self _))
  · have hd := forLoop_diverges sz v Entries (by omega) fuel
      { pkg := pkg, m := GoMap.make Capacity, i := 1, iterations := 0 }
      (le_of_lt (one_lt_maxInt sz))
    rw [hd] at h
    cases h

/-- What a map holding exactly the bindings `1 ↦ v, ..., n ↦ v` looks like from outside. -/
theorem contents_bindingsUpTo {V : Type} (v : V) (c : Int) (n : Nat) :
    let m : GoMap V := { hint := c, data := bindingsUpTo v n }
    m.len = n ∧ (∀ k : Int, k ∈ m.keys ↔ 1 ≤ k ∧ k ≤ n) ∧ m.keys.Nodup ∧
      ∀ k : Int, m.get? k = if 1 ≤ k ∧ k ≤ n then some v else none := by
  refine ⟨length_bindingsUpTo v n, mem_keys_bindingsUpTo v n, nodup_keys_bindingsUpTo v n, ?_⟩
  intro k
  simp only [GoMap.get?]
  rw [find_bindingsUpTo]
  split <;> rfl

/-! ## Contents of the built mappings -/

/-- C1: for every `Entries ≥ 0` and every capacity, the mapping that `MapWithEmptyStruct` has
built when its loop ends has exactly `Entries` bindings, its keys are exactly `1, ..., Entries`
(each once), and a lookup gives `struct{}{}` on these keys and nothing elsewhere. The loop
does end, with that mapping, whenever `Entries` is below the largest `int` and the fuel
exceeds `Entries`. -/
theorem MapWithEmptyStruct_contents (sz : IntSize) (pkg : Package) (Entries Capacity : Int)
    (hEntries : 0 ≤ Entries) :
    (∀ (fuel : Nat) (out : Frame EmptyStruct),
        MapWithEmptyStruct sz fuel pkg Entries Capacity = some out →
          (out.m.len : Int) = Entries ∧ (∀ k : Int, k ∈ out.m.keys ↔ 1 ≤ k ∧ k ≤ Entries) ∧
          out.m.keys.Nodup ∧
          ∀ k : Int, out.m.get? k = if 1 ≤ k ∧ k ≤ Entries then some EmptyStruct.mk else none) ∧
      (Entries < maxInt sz → ∀ fuel : Nat, Entries.toNat < fuel →
        ∃ out, MapWithEmptyStruct sz fuel pkg Entries Capacity = some out) := by
  refine ⟨?_, fun hE fuel hf => ⟨_, build_eq sz EmptyStruct.mk pkg Entries Capacity hE fuel hf⟩⟩
  intro fuel out h
  have hout := build_post sz EmptyStruct.mk pkg Entries Capacity fuel out h
  obtain ⟨hlen, hkeys, hnodup, hget⟩ :=
    contents_bindingsUpTo EmptyStruct.mk Capacity Entries.toNat
  have hcast : (Entries.toNat : Int) = Entries := Int.toNat_of_nonneg hEntries
  subst hout
  simp only [hcast] at hkeys hget
  exact ⟨by rw [hlen, hcast], hkeys, hnodup, hget⟩

/-- C1 at `MapWithEmptyStruct(5, 0)` on a 64-bit platform. -/
theorem MapWithEmptyStruct_contents_witness :
    (0 : Int) ≤ 5 ∧
    ((∀ (fuel : Nat) (out : Frame EmptyStruct),
        MapWithEmptyStruct IntSize.bits64 fuel Package.init 5 0 = some out →
          (out.m.len : Int) = 5 ∧ (∀ k : Int, k ∈ out.m.keys ↔ 1 ≤ k ∧ k ≤ 5) ∧
          out.m.keys.Nodup ∧
          ∀ k : Int, out.m.get? k = if 1 ≤ k ∧ k ≤ 5 then some EmptyStruct.mk else none) ∧
      ((5 : Int) < maxInt IntSize.bits64 → ∀ fuel : Nat, (5 : Int).toNat < fuel →
        ∃ out, MapWithEmptyStruct IntSize.bits64 fuel Package.init 5 0 = some out)) :=
  ⟨by decide, MapWithEmptyStruct_contents IntSize.bits64 Package.init 5 0 (by decide)⟩

/-- C2: for every `Entries ≥ 0` and every capacity, the mapping that `MapWithInterface` has
built when its loop ends has exactly `Entries` bindings, its keys are exactly `1, ..., Entries`
(each once), and a lookup gives the nil interface value on these keys and nothing elsewhere.
The loop does end, with that mapping, whenever `Entries` is below the largest `int` and the
fuel exceeds `Entries`. -/
theorem MapWithInterface_contents (sz : IntSize) (pkg : Package) (Entries Capacity : Int)
    (hEntries : 0 ≤ Entries) :
    (∀ (fuel : Nat) (out : Frame Interface),
        MapWithInterface sz fuel pkg Entries Capacity = some out →
          (out.m.len : Int) = Entries ∧ (∀ k : Int, k ∈ out.m.keys ↔ 1 ≤ k ∧ k ≤ Entries) ∧
          out.m.keys.Nodup ∧
          ∀ k : Int, out.m.get? k = if 1 ≤ k ∧ k ≤ Entries then some Interface.nil else none) ∧
      (Entries < maxInt sz → ∀ fuel : Nat, Entries.toNat < fuel →
        ∃ out, MapWithInterface sz fuel pkg Entries Capacity = some out) := by
  refine ⟨?_, fun hE fuel hf => ⟨_, build_eq sz Interface.nil pkg Entries Capacity hE fuel hf⟩⟩
  intro fuel out h
  have hout := build_post sz Interface.nil pkg Entries Capacity fuel out h
  obtain ⟨hlen, hkeys, hnodup, hget⟩ :=
    contents_bindingsUpTo Interface.nil Capacity Entries.toNat
  have hcast : (Entries.toNat : Int) = Entries := Int.toNat_of_nonneg hEntries
  subst hout
  simp only [hcast] at hkeys hget
  exact ⟨by rw [hlen, hcast], hkeys, hnodup, hget⟩

/-- C2 at `MapWithInterface(16, 100)` on a 32-bit platform. -/
theorem MapWithInterface_contents_witness :
    (0 : Int) ≤ 16 ∧
    ((∀ (fuel : Nat) (out : Frame Interface),
        MapWithInterface IntSize.bits32 fuel Package.init 16 100 = some out →
          (out.m.len : Int) = 16 ∧ (∀ k : Int, k ∈ out.m.keys ↔ 1 ≤ k ∧ k ≤ 16) ∧
          out.m.keys.Nodup ∧
          ∀ k : Int, out.m.get? k = if 1 ≤ k ∧ k ≤ 16 then some Interface.nil else none) ∧
      ((16 : Int) < maxInt IntSize.bits32 → ∀ fuel : Nat, (16 : Int).toNat < fuel →
        ∃ out, MapWithInterface IntSize.bits32 fuel Package.init 16 100 = some out)) :=
  ⟨by decide, MapWithInterface_contents IntSize.bits32 Package.init 16 100 (by decide)⟩

/-- C3: for every `Entries ≤ 0` and every capacity, both builders return (as soon as there
is fuel for one evaluation of the loop condition) after zero iterations, with the freshly
made mapping still empty. -/
theorem builders_nonpositive_entries (sz : IntSize) (pkg : Package) (Entries Capacity : Int)
    (fuel : Nat) (hEntries : Entries ≤ 0) :
    (∃ out, MapWithEmptyStruct sz (fuel + 1) pkg Entries Capacity = some out ∧
        out.iterations = 0 ∧ out.m = GoMap.make Capacity ∧ out.m.len = 0 ∧ out.m.keys = []) ∧
      (∃ out, MapWithInterface sz (fuel + 1) pkg Entries Capacity = some out ∧
        out.iterations = 0 ∧ out.m = GoMap.make Capacity ∧ out.m.len = 0 ∧ out.m.keys = []) := by
  constructor
  · exact ⟨_, forLoop_exit sz EmptyStruct.mk Entries fuel _ (by simp only; omega),
      rfl, rfl, rfl, rfl⟩
  · exact ⟨_, forLoop_exit sz Interface.nil Entries fuel _ (by simp only; omega),
      rfl, rfl, rfl, rfl⟩

/-- C3 at `Entries = -3`, `Capacity = 10` on a 64-bit platform. -/
theorem builders_nonpositive_entries_witness :
    (-3 : Int) ≤ 0 ∧
    ((∃ out, MapWithEmptyStruct IntSize.bits64 (0 + 1) Package.init (-3) 10 = some out ∧
        out.iterations = 0 ∧ out.m = GoMap.make 10 ∧ out.m.len = 0 ∧ out.m.keys = []) ∧
      (∃ out, MapWithInterface IntSize.bits64 (0 + 1) Package.init (-3) 10 = some out ∧
        out.iterations = 0 ∧ out.m = GoMap.make 10 ∧ out.m.len = 0 ∧ out.m.keys = [])) :=
  ⟨by decide, builders_nonpositive_entries IntSize.bits64 Package.init (-3) 10 0 (by decide)⟩

/-! ## Capacity hint -/

theorem small_lt_maxInt (sz : IntSize) (x : Int) (hx : x ≤ 1000) : x < maxInt sz := by
  have : (1000 : Int) < maxInt sz := by cases sz <;> norm_num [maxInt, IntSize.bits]
  omega

/-- C4: the capacity hint never changes the bindings of the built mapping. For every
`Entries`, every two hints and every fuel, each builder gives the same bindings under both
hints (and returns under both once `Entries` is below the largest `int` and the fuel exceeds
it); `MapWithEmptyStruct(100, 0)` grows to 100 bindings, and `MapWithInterface(0, 10)` builds
the empty mapping. -/
theorem capacity_hint_irrelevant (sz : IntSize) (pkg : Package) (Entries c₁ c₂ : Int)
    (fuel : Nat) :
    (MapWithEmptyStruct sz fuel pkg Entries c₁).map (fun o => o.m.data) =
        (MapWithEmptyStruct sz fuel pkg Entries c₂).map (fun o => o.m.data) ∧
      (MapWithInterface sz fuel pkg Entries c₁).map (fun o => o.m.data) =
        (MapWithInterface sz fuel pkg Entries c₂).map (fun o => o.m.data) ∧
      (Entries < maxInt sz → Entries.toNat < fuel →
        (MapWithEmptyStruct sz fuel pkg Entries c₁).isSome = true ∧
        (MapWithEmptyStruct sz fuel pkg Entries c₂).isSome = true ∧
        (MapWithInterface sz fuel pkg Entries c₁).isSome = true ∧
        (MapWithInterface sz fuel pkg Entries c₂).isSome = true) ∧
      (MapWithEmptyStruct sz 101 pkg 100 0).map (fun o => o.m.len) = some 100 ∧
      (MapWithInterface sz 1 pkg 0 10).map (fun o => o.m.data) = some [] := by
  refine ⟨?_, ?_, ?_, ?_, ?_⟩
  · have h := forLoop_hint sz EmptyStruct.mk Entries fuel
      { pkg := pkg, m := GoMap.make c₂, i := 1, iterations := 0 } c₁
    have h' := congrArg (Option.map fun t => t.2.1) h
    simpa only [Option.map_map] using h'
  · have h := forLoop_hint sz Interface.nil Entries fuel
      { pkg := pkg, m := GoMap.make c₂, i := 1, iterations := 0 } c₁
    have h' := congrArg (Option.map fun t => t.2.1) h
    simpa only [Option.map_map] using h'
  · intro hE hf
    simp only [MapWithEmptyStruct, MapWithInterface, build_eq sz _ pkg Entries _ hE fuel hf,
      Option.isSome_some, and_self]
  · have h := build_eq sz EmptyStruct.mk pkg 100 0 (small_lt_maxInt sz 100 (by norm_num)) 101
      (by decide)
    rw [MapWithEmptyStruct, h]
    simp [GoMap.len, length_bindingsUpTo]
  · rfl

/-! ## Termination -/

/-- C5, at the failing input: with `Entries` the largest `int`, neither builder returns,
however much fuel it is given, because `i <= Entries` holds for every `int` and `i++` wraps
around from the largest to the smallest `int`. -/
theorem builders_diverge_at_maxInt (sz : IntSize) (fuel : Nat) (pkg : Package)
    (Capacity : Int) :
    MapWithEmptyStruct sz fuel pkg (maxInt sz) Capacity = none ∧
      MapWithInterface sz fuel pkg (maxInt sz) Capacity = none ∧
      incr sz (maxInt sz) = minInt sz ∧ minInt sz ≤ maxInt sz ∧
      maxInt IntSize.bits64 = 9223372036854775807 ∧ maxInt IntSize.bits32 = 2147483647 := by
  refine ⟨forLoop_diverges sz _ _ le_rfl fuel _ (le_of_lt (one_lt_maxInt sz)),
    forLoop_diverges sz _ _ le_rfl fuel _ (le_of_lt (one_lt_maxInt sz)), ?_, ?_, ?_, ?_⟩
  · cases sz <;> decide
  · cases sz <;> decide
  · decide
  · decide

/-- Below the largest `int`, both builders return after exactly `Entries` iterations (none
for a negative `Entries`), as soon as the fuel exceeds that number. -/
theorem builders_terminate_below_maxInt (sz : IntSize) (fuel : Nat) (pkg : Package)
    (Entries Capacity : Int) (hE : Entries < maxInt sz) (hf : Entries.toNat < fuel) :
    (MapWithEmptyStruct sz fuel pkg Entries Capacity).map (fun o => o.iterations) =
        some Entries.toNat ∧
      (MapWithInterface sz fuel pkg Entries Capacity).map (fun o => o.iterations) =
        some Entries.toNat := by
  simp only [MapWithEmptyStruct, MapWithInterface, build_eq sz _ pkg Entries _ hE fuel hf,
    Option.map_some', and_self]

/-! ## Independence of calls and the package-level `m` -/

theorem callTwice_forLoop {V : Type} (sz : IntSize) (v : V) (Entries Capacity : Int)
    (fuel : Nat) (pkg pkg' : Package) :
    callTwice (fun p => forLoop sz v Entries fuel
        { pkg := p, m := GoMap.make Capacity, i := 1, iterations := 0 }) pkg =
      (forLoop sz v Entries fuel
        { pkg := pkg', m := GoMap.make Capacity, i := 1, iterations := 0 }).map
        fun o => (o.m, o.m) := by
  have hirr := forLoop_pkg_irrelevant sz v Entries fuel
    { pkg := pkg, m := GoMap.make Capacity, i := 1, iterations := 0 } pkg'
  simp only at hirr
  unfold callTwice
  dsimp only
  cases h : forLoop sz v Entries fuel
      { pkg := pkg, m := GoMap.make Capacity, i := 1, iterations := 0 } with
  | none =>
    rw [h] at hirr
    cases h' : forLoop sz v Entries fuel
        { pkg := pkg', m := GoMap.make Capacity, i := 1, iterations := 0 } with
    | none => rfl
    | some o => rw [h'] at hirr; cases hirr
  | some first =>
    have hp : first.pkg = pkg := forLoop_pkg sz v Entries fuel _ first h
    rw [h] at hirr
    cases h' : forLoop sz v Entries fuel
        { pkg := pkg', m := GoMap.make Capacity, i := 1, iterations := 0 } with
    | none => rw [h'] at hirr; cases hirr
    | some o =>
      rw [h'] at hirr
      have hm : o.m = first.m := Option.some.inj hirr
      simp only [Option.some_bind, hp, h, Option.map_some', hm]

/-- C8: two calls of a builder with the same parameters, the second started in whatever
package state the first one left, build two mappings that are both equal to the mapping
that a single call builds from any package state `pkg'` whatsoever; in particular their key
sets are identical. Both calls return once `Entries` is below the largest `int` and the fuel
exceeds it. -/
theorem builders_independent_calls (sz : IntSize) (fuel : Nat) (pkg pkg' : Package)
    (Entries Capacity : Int) :
    callTwice (fun p => MapWithEmptyStruct sz fuel p Entries Capacity) pkg =
        (MapWithEmptyStruct sz fuel pkg' Entries Capacity).map (fun o => (o.m, o.m)) ∧
      callTwice (fun p => MapWithInterface sz fuel p Entries Capacity) pkg =
        (MapWithInterface sz fuel pkg' Entries Capacity).map (fun o => (o.m, o.m)) ∧
      (Entries < maxInt sz → Entries.toNat < fuel →
        (∃ m, callTwice (fun p => MapWithEmptyStruct sz fuel p Entries Capacity) pkg =
            some (m, m) ∧ ∀ k : Int, k ∈ m.keys ↔ 1 ≤ k ∧ k ≤ Entries) ∧
        (∃ m, callTwice (fun p => MapWithInterface sz fuel p Entries Capacity) pkg =
            some (m, m) ∧ ∀ k : Int, k ∈ m.keys ↔ 1 ≤ k ∧ k ≤ Entries)) := by
  refine ⟨callTwice_forLoop sz _ Entries Capacity fuel pkg pkg',
    callTwice_forLoop sz _ Entries Capacity fuel pkg pkg', ?_⟩
  intro hE hf
  constructor
  · refine ⟨{ hint := Capacity, data := bindingsUpTo EmptyStruct.mk Entries.toNat }, ?_, ?_⟩
    · have h := callTwice_forLoop sz EmptyStruct.mk Entries Capacity fuel pkg pkg
      rw [build_eq sz _ pkg Entries _ hE fuel hf] at h
      exact h
    · intro k
      rw [GoMap.keys, mem_keys_bindingsUpTo]
      omega
  · refine ⟨{ hint := Capacity, data := bindingsUpTo Interface.nil Entries.toNat }, ?_, ?_⟩
    · have h := callTwice_forLoop sz Interface.nil Entries Capacity fuel pkg pkg
      rw [build_eq sz _ pkg Entries _ hE fuel hf] at h
      exact h
    · intro k
      rw [GoMap.keys, mem_keys_bindingsUpTo]
      omega

/-- C10: neither builder writes the package-level `m`: in every frame that a builder returns,
the package-level variables are those of the call's start, so `m` is still the nil map when it
was nil before; and the builders do return, once `Entries` is below the largest `int` and the
fuel exceeds it. -/
theorem builders_leave_package_m (sz : IntSize) (fuel : Nat) (pkg : Package)
    (Entries Capacity : Int) :
    (∀ out, MapWithEmptyStruct sz fuel pkg Entries Capacity = some out → out.pkg = pkg) ∧
      (∀ out, MapWithInterface sz fuel pkg Entries Capacity = some out → out.pkg = pkg) ∧
      (∀ out, MapWithEmptyStruct sz fuel Package.init Entries Capacity = some out →
        out.pkg.m = none) ∧
      (∀ out, MapWithInterface sz fuel Package.init Entries Capacity = some out →
        out.pkg.m = none) ∧
      (Entries < maxInt sz → Entries.toNat < fuel →
        (MapWithEmptyStruct sz fuel pkg Entries Capacity).map (fun o => o.pkg) = some pkg ∧
        (MapWithInterface sz fuel pkg Entries Capacity).map (fun o => o.pkg) = some pkg) := by
  refine ⟨fun out h => forLoop_pkg sz _ Entries fuel _ out h,
    fun out h => forLoop_pkg sz _ Entries fuel _ out h, ?_, ?_, ?_⟩
  · intro out h
    have hp : out.pkg = Package.init := forLoop_pkg sz _ Entries fuel _ out h
    rw [hp]
    rfl
  · intro out h
    have hp : out.pkg = Package.init := forLoop_pkg sz _ Entries fuel _ out h
    rw [hp]
    rfl
  · intro hE hf
    simp only [MapWithEmptyStruct, MapWithInterface, build_eq sz _ pkg Entries _ hE fuel hf,
      Option.map_some', and_self]

/-! ## Benchmark labels -/

/-- C9 as stated fails: the label of the row `(7, 0)` is not `Entries: 7, InitialCapacity: 0`,
and the label of `(100, 128)`, where no padding is needed, is not
`Entries: 100, InitialCapacity: 128` either, because of the final newline. -/
theorem desc_not_plain_decimal :
    (⟨7, 0⟩ : Benchmark) ∈ benchmarks ∧ desc ⟨7, 0⟩ ≠ "Entries: 7, InitialCapacity: 0" ∧
      (⟨100, 128⟩ : Benchmark) ∈ benchmarks ∧
      desc ⟨100, 128⟩ ≠ "Entries: 100, InitialCapacity: 128" := by
  decide

/-- C9, amended: the benchmark table is exactly the eight rows below, and the label of each
row is `Entries: `, the entry count in decimal right-aligned in a field of three characters,
`, InitialCapacity: `, the capacity in the same way, and a newline. -/
theorem desc_on_benchmarks :
    benchmarks.map (fun bm => (bm.Entries, bm.InitialCapacity, desc bm)) =
      [(7, 0, "Entries:   7, InitialCapacity:   0\n"),
       (8, 0, "Entries:   8, InitialCapacity:   0\n"),
       (9, 0, "Entries:   9, InitialCapacity:   0\n"),
       (16, 16, "Entries:  16, InitialCapacity:  16\n"),
       (16, 32, "Entries:  16, InitialCapacity:  32\n"),
       (16, 100, "Entries:  16, InitialCapacity: 100\n"),
       (100, 0, "Entries: 100, InitialCapacity:   0\n"),
       (100, 128, "Entries: 100, InitialCapacity: 128\n")] := by
  decide

end BenchmarkGolangMaps
